import Mathlib

/-!
# Verification of django-simple-history (`simple_history/models.py`)

Shallow embedding of the history-tracking layer:

* `Field` / `transform_field` — the column transformer (`models.py:297`).
* `PKChain` / `get_field` — the foreign-key downgrader on one-to-one
  primary-key chains (`models.py:229-280`).
* a heap model of `copy_fields` (`models.py:119`), tracking object identity
  so frame properties about the caller's field objects are expressible.
* lifecycle handlers `post_save`, `post_delete`, `m2m_changed` and the
  snapshotting `create_historical_record` (`models.py:186-222`).
* `save_without_historical_record` (`models.py:51`).
* `get_meta_options` ordering and a comparator interpreting Django's
  `Meta.ordering` keys (`models.py:171`).
* the `instance` reconstructor `get_instance` (`models.py:152`) and the
  snapshot round-trip.
-/

namespace SimpleHistory

/-- Django field classes relevant to the code under analysis.
`OneToOneField` subclasses `ForeignKey`; `CustomForeignKey` is the dynamic
class built by `get_custom_fk_class` over a `ForeignKey` parent. -/
inductive FieldClass where
  | AutoField
  | IntegerField
  | FileField
  | TextField
  | CharField
  | DateTimeField
  | ForeignKey
  | OneToOneField
  | CustomForeignKey
  deriving Repr, DecidableEq, Inhabited

/-- `isinstance(f, models.ForeignKey)`: true for `ForeignKey` and its
subclasses (`OneToOneField`, the generated custom FK class). -/
def FieldClass.isFK : FieldClass → Bool
  | .ForeignKey | .OneToOneField | .CustomForeignKey => true
  | _ => false

/-- `isinstance(f, models.FileField)`. -/
def FieldClass.isFile : FieldClass → Bool
  | .FileField => true
  | _ => false

/-- `isinstance(f, models.AutoField)`. -/
def FieldClass.isAuto : FieldClass → Bool
  | .AutoField => true
  | _ => false

/-- One Django field object: the attributes of `django.db.models.Field` that
the code under analysis reads or writes.  `relId` is the heap id of the
`field.rel` object (`none` for non-relational fields, like `rel = None`). -/
structure Field where
  name : String
  attname : String
  klass : FieldClass
  auto_now : Bool
  auto_now_add : Bool
  primary_key : Bool
  /-- Django stores uniqueness in `_unique`; `field.unique` reads it. -/
  _unique : Bool
  db_index : Bool
  serialize : Bool
  null : Bool
  blank : Bool
  max_length : Option Nat
  choices : List (Int × String)
  relId : Option Nat
  deriving Repr, DecidableEq, Inhabited

/-- `transform_field` (`models.py:297-318`): customize a field for use in the
historical model.  Renames storage name to `attname`, downgrades
`AutoField` to `IntegerField` and `FileField` to `TextField`, forces
auto-timestamps off, and strips primary-key/unique constraints while adding
a non-unique index. -/
def transform_field (f0 : Field) : Field :=
  -- field.name = field.attname
  let f1 := { f0 with name := f0.attname }
  -- isinstance(field, models.AutoField) / elif isinstance(field, models.FileField)
  let f2 :=
    if f1.klass.isAuto then { f1 with klass := .IntegerField }
    else if f1.klass.isFile then { f1 with klass := .TextField }
    else f1
  -- field.auto_now = False; field.auto_now_add = False
  let f3 := { f2 with auto_now := false, auto_now_add := false }
  -- if field.primary_key or field.unique:
  if f3.primary_key || f3._unique then
    { f3 with primary_key := false, _unique := false,
              db_index := true, serialize := true }
  else f3

/-- **C6.** For every input field: an `AutoField` becomes an `IntegerField`
and a `FileField` becomes a `TextField` (other classes are untouched);
`auto_now` and `auto_now_add` come out forced off; the primary-key and
unique flags come out stripped; and `db_index` is set exactly when it was
already set or the field was a primary key or unique — so a previously
constrained column gains a non-unique index. -/
theorem C6_transform_field_spec (f : Field) :
    (transform_field f).klass =
      (if f.klass.isAuto then .IntegerField
       else if f.klass.isFile then .TextField else f.klass) ∧
    (transform_field f).auto_now = false ∧
    (transform_field f).auto_now_add = false ∧
    (transform_field f).primary_key = false ∧
    (transform_field f)._unique = false ∧
    (transform_field f).db_index = (f.db_index || (f.primary_key || f._unique)) := by
  cases f with
  | mk name attname klass auto_now auto_now_add primary_key u db_index
      serialize null blank max_length choices relId =>
    simp only [transform_field]
    cases klass <;> cases primary_key <;> cases u <;> cases db_index <;>
      simp [FieldClass.isAuto, FieldClass.isFile]

/-! ## Lifecycle handlers and the audit recorder (`models.py:186-222`) -/

/-- A live source-model instance as the signal handlers see it:
whether the transient suppression attribute `skip_history_when_saving` is
present, the transient `_history_user` attribute, and its concrete column
values (`attnames` are `instance._meta.fields` attnames; `getattr` reads an
attribute value). -/
structure Inst where
  skip_history_when_saving : Bool
  _history_user : Option Nat
  attnames : List String
  getattr : String → Int

/-- One audit row as `manager.create` receives it. -/
structure HRow where
  history_type : Char
  history_user : Option Nat
  attrs : List (String × Int)

/-- `create_historical_record` (`models.py:216-222`): snapshot every field's
current value by attname and insert one audit row with the given
change-type code. -/
def create_historical_record (inst : Inst) (ty : Char) : HRow :=
  { history_type := ty,
    history_user := inst._history_user,
    attrs := inst.attnames.map (fun a => (a, inst.getattr a)) }

/-- `post_save` (`models.py:186-190`), returning the audit rows it inserts.
Skips when the save is an update and the suppression marker is present, and
when the save is flagged `raw`. -/
def post_save (inst : Inst) (created : Bool) (raw : Bool) : List HRow :=
  if !created && inst.skip_history_when_saving then []
  else if !raw then
    [create_historical_record inst (if created then '+' else '~')]
  else []

/-- `post_delete` (`models.py:192-193`): unconditionally record one
`'-'` row. -/
def post_delete (inst : Inst) : List HRow :=
  [create_historical_record inst '-']

/-- One lifecycle event on a source instance, carrying the instance state
(hence the suppression marker) at the moment the signal fires.  An insert
is `save` with `created = true`, an update is `save` with
`created = false`. -/
inductive Event where
  | save (inst : Inst) (created : Bool) (raw : Bool)
  | delete (inst : Inst)

/-- Dispatch one signal to its handler. -/
def handleEvent : Event → List HRow
  | .save i c r => post_save i c r
  | .delete i => post_delete i

/-- The audit rows produced by a sequence of lifecycle events, in order. -/
def runHistory (evs : List Event) : List HRow :=
  (evs.map handleEvent).flatten

/-- The recording rule exactly as the claim states it: insert records `'+'`
unless the suppression marker is present; update records `'~'` unless the
marker is present or the save is raw; delete records `'-'`.  Written from
the claim's words, to be compared against `runHistory`. -/
def claimedCode : Event → Option Char
  | .save i c r =>
      if c then (if i.skip_history_when_saving then none else some '+')
      else if i.skip_history_when_saving || r then none else some '~'
  | .delete _ => some '-'

/-- The recording rule the code actually implements: insert records `'+'`
unless the save is raw (the suppression marker is ignored on inserts);
update records `'~'` unless the marker is present or the save is raw;
delete records `'-'`. -/
def recordedCode : Event → Option Char
  | .save i c r =>
      if !c && i.skip_history_when_saving then none
      else if !r then some (if c then '+' else '~') else none
  | .delete _ => some '-'

/-- A concrete instance carrying the suppression marker. -/
def markedInst : Inst :=
  { skip_history_when_saving := true, _history_user := none,
    attnames := [], getattr := fun _ => 0 }

/-- **C1, counterexample.** A non-raw insert on an instance that carries the
suppression marker: the claim predicts no audit row, but `post_save`
records a `'+'` row — the marker only suppresses updates
(`models.py:187` tests `not created and hasattr(...)`). -/
theorem C1_counterexample :
    (runHistory [Event.save markedInst true false]).map (·.history_type)
        = ['+'] ∧
    [Event.save markedInst true false].filterMap claimedCode = [] := by
  constructor <;> rfl

/-- **C1, amended.** Over any sequence of insert/update/delete events, the
audit rows are exactly those picked out by the per-event rule
`recordedCode` — insert records `'+'` unless flagged raw (the suppression
marker does not affect inserts), update records `'~'` unless the marker is
present or the save is flagged raw, delete records `'-'` — so the number of
audit rows equals the number of non-suppressed mutations and the
change-type codes match the mutations in order. -/
theorem C1_history_codes (evs : List Event) :
    (runHistory evs).map (·.history_type) = evs.filterMap recordedCode := by
  induction evs with
  | nil => rfl
  | cons ev rest ih =>
    cases ev with
    | save i c r =>
      cases c <;> cases r <;>
        simp only [runHistory, List.map_cons, List.flatten, List.map_append,
          handleEvent, post_save, recordedCode, List.filterMap_cons,
          Bool.not_true, Bool.not_false, Bool.false_and, Bool.true_and,
          if_false, if_true] <;>
        cases h : i.skip_history_when_saving <;>
        simp_all [runHistory, create_historical_record]
    | delete i =>
      simp_all [runHistory, handleEvent, post_delete, recordedCode,
        create_historical_record]

/-- **C2.** `post_delete` always records exactly one audit row and its
change-type code is `'-'`: no instance state (in particular not the
suppression marker) prevents it. -/
theorem C2_delete_always_recorded (inst : Inst) :
    (post_delete inst).length = 1 ∧
    (post_delete inst).map (·.history_type) = ['-'] := by
  constructor <;> rfl

/-- `save_without_historical_record` (`models.py:51-62`): set the
suppression marker, run the wrapped `save` (which may itself mutate the
instance and may raise — `saveFn` returns the outcome and the post-save
instance state), and delete the marker in a `finally` block on every exit
path. -/
def save_without_historical_record {ε α : Type}
    (saveFn : Inst → Except ε α × Inst) (inst : Inst) : Except ε α × Inst :=
  let inst1 := { inst with skip_history_when_saving := true }
  let res := saveFn inst1
  -- finally: del self.skip_history_when_saving
  (res.1, { res.2 with skip_history_when_saving := false })

/-- **C3.** After `save_without_historical_record` — whether the wrapped
save returns normally or raises — the instance no longer carries the
suppression marker, and a subsequent non-raw update on that instance is
recorded as usual. -/
theorem C3_marker_always_cleared {ε α : Type}
    (saveFn : Inst → Except ε α × Inst) (inst : Inst) :
    (save_without_historical_record saveFn inst).2.skip_history_when_saving
        = false ∧
    (post_save (save_without_historical_record saveFn inst).2 false
        false).length = 1 := by
  constructor
  · rfl
  · simp [post_save, save_without_historical_record]

/-! ## The membership-change handler (`models.py:195-214`) -/

/-- One forward relational descriptor found in the join model's `__dict__`:
its attribute name and the identity of the model its field points at
(`field.related.parent_model`). -/
structure JoinDescriptor where
  name : String
  parentModel : Nat
  deriving Repr, DecidableEq

/-- The side-resolution loop of `m2m_changed` (`models.py:196-202`): scan
the join model's relational descriptors; one whose related model equals
`kwargs['model']` names the target side, else one whose related model
equals `type(instance)` names the source side.  Returns
`(source_field_name, target_field_name)`, each `none` when never
assigned. -/
def resolveSides (descs : List JoinDescriptor) (kwargsModel instModel : Nat) :
    Option String × Option String :=
  descs.foldl
    (fun st d =>
      if d.parentModel = kwargsModel then (st.1, some d.name)
      else if d.parentModel = instModel then (some d.name, st.2)
      else st)
    (none, none)

/-- One row of the join (through) table: the source-side and target-side
foreign-key values, and the row itself as a model instance (carrying the
suppression marker and the attribute values that
`create_historical_record` snapshots). -/
structure JoinItem where
  srcRef : Nat
  tgtRef : Nat
  inst : Inst

/-- The per-item recording loop of `m2m_changed` (`models.py:206-214`).
On `post_add`, an item carrying the suppression marker makes the handler
`return`, abandoning the remaining items; `pre_remove` and `pre_clear`
record a `'-'` row per item; any other action records nothing. -/
def m2mRecordLoop (action : String) : List JoinItem → List HRow
  | [] => []
  | item :: rest =>
    if action = "post_add" then
      if item.inst.skip_history_when_saving then []
      else create_historical_record item.inst '+' :: m2mRecordLoop action rest
    else if action = "pre_remove" then
      create_historical_record item.inst '-' :: m2mRecordLoop action rest
    else if action = "pre_clear" then
      create_historical_record item.inst '-' :: m2mRecordLoop action rest
    else m2mRecordLoop action rest

/-- `m2m_changed` (`models.py:195-214`).  After side resolution, the code
runs `sender.objects.filter(**{source_field_name: instance})`: when
`source_field_name` is still `None`, the `**` call raises
`TypeError: keywords must be strings` before any row is recorded.  When
`kwargs['pk_set']` is truthy the items are further filtered by
`target_field_name + '__id__in'`: a `None` target name makes the string
concatenation raise `TypeError`.  Otherwise the matched join rows are fed
to the recording loop.  `db` is the join table's contents; `instPk`
identifies `instance`, so the source filter keeps rows whose source-side
foreign key is `instance`. -/
def m2m_changed (action : String) (instModel instPk : Nat)
    (descs : List JoinDescriptor) (kwargsModel : Nat)
    (db : List JoinItem) (pk_set : Option (List Nat)) :
    Except String (List HRow) :=
  let sides := resolveSides descs kwargsModel instModel
  match sides.1 with
  | none => .error "TypeError: keywords must be strings"
  | some _ =>
    let items0 := db.filter (fun it => it.srcRef = instPk)
    let pkTruthy := match pk_set with
      | none => false
      | some l => !l.isEmpty
    if pkTruthy then
      match sides.2 with
      | none => .error "TypeError: unsupported operand"
      | some _ =>
        let pks := pk_set.getD []
        .ok (m2mRecordLoop action (items0.filter (fun it => pks.contains it.tgtRef)))
    else
      .ok (m2mRecordLoop action items0)

/-- **C4, counterexample.** A concrete `post_add` event whose join model
exposes no relational descriptor, so neither side can be resolved: the
handler does not abort silently — it raises a `TypeError` that propagates
to the caller (`filter(**{None: instance})`), contradicting the claim that
no error escapes. -/
theorem C4_counterexample :
    m2m_changed "post_add" 0 7 [] 1 [] (some [1])
      = .error "TypeError: keywords must be strings" := by
  rfl

/-- **C4, amended.** When the side-resolution loop cannot determine the
owner (source) side of the relation, the handler stops before recording
anything: no audit row is produced, but instead of a silent abort a
`TypeError` propagates to the caller of the triggering mutation. -/
theorem C4_unresolved_side_raises (action : String) (instModel instPk : Nat)
    (descs : List JoinDescriptor) (kwargsModel : Nat)
    (db : List JoinItem) (pk_set : Option (List Nat))
    (h : (resolveSides descs kwargsModel instModel).1 = none) :
    m2m_changed action instModel instPk descs kwargsModel db pk_set
      = .error "TypeError: keywords must be strings" := by
  simp only [m2m_changed, h]

/-- Witness for `C4_unresolved_side_raises` at a concrete input: a join
model with a single descriptor pointing at an unrelated model resolves
neither side. -/
theorem C4_unresolved_side_raises_witness :
    (resolveSides [⟨"other", 5⟩] 1 0).1 = none ∧
    m2m_changed "pre_clear" 0 7 [⟨"other", 5⟩] 1 [] none
      = .error "TypeError: keywords must be strings" :=
  ⟨rfl, C4_unresolved_side_raises "pre_clear" 0 7 [⟨"other", 5⟩] 1 [] none rfl⟩

/-- **C10.** On `post_add` with resolvable sides (here a join model whose
descriptors name a source model `0` and a target model `1`) and a falsy
`pk_set`, the rows recorded are exactly one `'+'` row per matched item of
the longest marker-free prefix: as soon as one matched item carries the
suppression marker the handler returns, so neither that item nor any later
one gets an audit row. -/
theorem C10_post_add_stops_at_marker (instPk : Nat) (db : List JoinItem) :
    m2m_changed "post_add" 0 instPk
        [⟨"team", 0⟩, ⟨"member", 1⟩] 1 db none
      = .ok (((db.filter (fun it => it.srcRef = instPk)).takeWhile
            (fun it => !it.inst.skip_history_when_saving)).map
          (fun it => create_historical_record it.inst '+')) := by
  simp only [m2m_changed, resolveSides, List.foldl]
  norm_num
  generalize db.filter (fun it => it.srcRef = instPk) = items
  induction items with
  | nil => rfl
  | cons item rest ih =>
    simp only [m2mRecordLoop, List.takeWhile, if_true]
    cases h : item.inst.skip_history_when_saving <;> simp_all

/-! ## The foreign-key downgrader (`ForeignKeyMixin`, `models.py:225-280`) -/

/-- The shape of `self.rel.to._meta.pk` as `get_field` inspects it: either a
plain auto-increment identity (`AutoField`), a non-relational scalar
column (carrying the attributes `get_field` copies over), or a
`OneToOneField` — which carries its own field attributes and points at a
further model whose primary key is the next link of the chain. -/
inductive PKChain where
  | auto : PKChain
  | scalar (pkField : Field) : PKChain
  | oneToOne (oattrs : Field) (next : PKChain) : PKChain

/-- The attribute copy of `get_field`'s `else` branch (`models.py:252-279`):
`field.__class__ = to_field.__class__`, then every public attribute of
`to_field` is copied over except the `excluded_attributes`
(`rel`, `attname`, `name`, `db_index`, `db_column`, `default`, `null`,
`blank`, bookkeeping, ...).  Thus class, `max_length`, `choices`,
`primary_key`, `_unique` and the timestamp flags transfer; `name`,
`attname`, `null`, `blank`, `db_index` and the relation stay the
field's own. -/
def copyScalarAttrs (f : Field) (pk : Field) : Field :=
  { f with klass := pk.klass, max_length := pk.max_length,
           choices := pk.choices, primary_key := pk.primary_key,
           _unique := pk._unique, auto_now := pk.auto_now,
           auto_now_add := pk.auto_now_add, serialize := pk.serialize }

/-- `ForeignKeyMixin.get_field` (`models.py:242-280`) together with
`get_one_to_one_field` (`models.py:229-240`): when the referenced primary
key is a `OneToOneField`, build a temp field of the same (custom FK) class
carrying the one-to-one field's public attributes and recurse on the next
model's primary key; when it is an `AutoField`, downgrade the field's
class to `IntegerField`; otherwise copy the scalar primary key's
configuration. -/
def get_field (f : Field) : PKChain → Field
  | .oneToOne oattrs next => get_field { oattrs with klass := f.klass } next
  | .auto => { f with klass := .IntegerField }
  | .scalar pk => copyScalarAttrs f pk

/-- The same recursion with explicit fuel, mirroring the unbounded mutual
recursion `get_field` → `get_one_to_one_field` → `get_field` in the
source: `none` means the recursion did not finish within the allotted
depth. -/
def get_fieldFuel : Nat → Field → PKChain → Option Field
  | 0, _, _ => none
  | fuel + 1, f, pk =>
    match pk with
    | .oneToOne oattrs next => get_fieldFuel fuel { oattrs with klass := f.klass } next
    | .auto => some { f with klass := .IntegerField }
    | .scalar pkf => some (copyScalarAttrs f pkf)

/-- The length of the one-to-one chain in front of the resolved scalar or
identity primary key. -/
def PKChain.depth : PKChain → Nat
  | .oneToOne _ next => next.depth + 1
  | .auto => 0
  | .scalar _ => 0

/-- **C5.** Downgrading a foreign key whose referenced primary key heads a
one-to-one chain of any finite depth terminates: fuel equal to the chain
length plus one already makes the fueled recursion return (it stops the
moment the resolved primary key is a plain `AutoField` identity or a
non-relational scalar, never recursing past it), and the value it returns
is the one the total function `get_field` computes. -/
theorem C5_get_field_terminates (pk : PKChain) (f : Field) :
    get_fieldFuel (pk.depth + 1) f pk = some (get_field f pk) := by
  induction pk generalizing f with
  | auto => rfl
  | scalar pkf => rfl
  | oneToOne oattrs next ih =>
    simp only [PKChain.depth, get_fieldFuel, get_field]
    exact ih { oattrs with klass := f.klass }

/-! ## The `instance` reconstructor and the snapshot round-trip
(`models.py:152-153`, `models.py:216-222`) -/

/-- Constructing a source-model instance from keyword arguments, as
`model(**kwargs)` does: each column attribute named by the kwargs holds the
given value (absent names fall back to the column default, here `0`).  The
constructed instance carries no transient markers. -/
def mkModelInstance (kwargs : List (String × Int)) : Inst :=
  { skip_history_when_saving := false,
    _history_user := none,
    attnames := kwargs.map (·.1),
    getattr := fun a => ((kwargs.lookup a).getD 0) }

/-- `get_instance` (`models.py:152-153`): build a transient source-shaped
instance as `model(**dict((k, getattr(self, k)) for k in fields))`.
`fieldKeys` are the keys of the `copy_fields` dictionary — after
`transform_field` each copied field's `name` equals its `attname`, so they
coincide with the source fields' attnames — and `rowGetattr` reads the
audit row's stored column values. -/
def get_instance (fieldKeys : List String) (rowGetattr : String → Int) : Inst :=
  mkModelInstance (fieldKeys.map (fun k => (k, rowGetattr k)))

/-- Looking an attribute up in kwargs built by tabulating a function over
the key list finds exactly the tabulated value. -/
theorem lookup_tabulate (g : String → Int) (ks : List String) (a : String)
    (ha : a ∈ ks) : (ks.map (fun k => (k, g k))).lookup a = some (g a) := by
  induction ks with
  | nil => cases ha
  | cons k rest ih =>
    by_cases hk : a = k
    · subst hk; simp [List.lookup]
    · have hmem : a ∈ rest := by
        rcases List.mem_cons.mp ha with h | h
        · exact absurd h hk
        · exact h
      have hbeq : (a == k) = false := beq_eq_false_iff_ne.mpr hk
      simpa [List.lookup, hbeq] using ih hmem

/-- **C7.** Materializing a transient source-shaped instance from an audit
row via the reconstructor and re-snapshotting it with the audit recorder
reproduces exactly the scalar column values stored in the audit row: for
every attname `a` among the field keys, the re-snapshot stores the value
`rowGetattr a` the audit row holds, in the same field order.  The
round-trip through `get_instance` is lossless for every scalar column. -/
theorem C7_roundtrip_lossless (fieldKeys : List String)
    (rowGetattr : String → Int) (ty : Char) :
    (create_historical_record (get_instance fieldKeys rowGetattr) ty).attrs
      = fieldKeys.map (fun a => (a, rowGetattr a)) := by
  simp only [create_historical_record, get_instance, mkModelInstance,
    List.map_map]
  refine List.map_congr_left (fun a ha => ?_)
  simp [lookup_tabulate rowGetattr fieldKeys a ha]

/-! ## Default ordering of the historical model (`models.py:171-184`) -/

/-- The `Meta` options `get_meta_options` fills in. -/
structure MetaOptions where
  ordering : List String
  verbose_name : String
  deriving Repr, DecidableEq

/-- `get_meta_options` (`models.py:171-184`): default ordering is
`('-history_date', '-history_id')`; the verbose name is the user's when
set, else `'historical '` prefixed to the model's. -/
def get_meta_options (user_set_verbose_name : Option String)
    (model_verbose_name : String) : MetaOptions :=
  { ordering := ["-history_date", "-history_id"],
    verbose_name :=
      match user_set_verbose_name with
      | some v => v
      | none => "historical " ++ model_verbose_name }

/-- The two columns the default ordering can name, for one audit row:
its auto-increment sequence id and its insertion timestamp (timestamps
modelled as naturals, totally ordered). -/
structure HRowKey where
  history_date : Nat
  history_id : Nat
  deriving Repr, DecidableEq

/-- Read one ordering column off an audit row. -/
def auditKeyVal (r : HRowKey) : String → Nat
  | "history_date" => r.history_date
  | "history_id" => r.history_id
  | _ => 0

/-- Python's `key.startswith('-')`, read off the string's character data. -/
def startsWithDash (s : String) : Bool :=
  match s.data with
  | '-' :: _ => true
  | _ => false

/-- Modelled from the ORM's documented `Meta.ordering` semantics (the query
layer is outside this repository): a `'-'`-prefixed key sorts that column
descending, a bare key ascending, and each later key breaks ties left by
the earlier ones.  Returns `.lt` when `r1` is retrieved before `r2`. -/
def orderingCmp (r1 r2 : HRowKey) : List String → Ordering
  | [] => .eq
  | k :: ks =>
    let c :=
      if startsWithDash k then
        compare (auditKeyVal r2 (k.drop 1)) (auditKeyVal r1 (k.drop 1))
      else
        compare (auditKeyVal r1 k) (auditKeyVal r2 k)
    match c with
    | .eq => orderingCmp r1 r2 ks
    | o => o

/-- **C9.** Under the ordering `get_meta_options` installs, row `r1` is
retrieved strictly before row `r2` exactly when `r1` has the later
timestamp, or the timestamps tie and `r1` has the larger sequence id:
reverse-chronological order with the sequence id as a deterministic
tie-breaker. -/
theorem C9_default_ordering (vn : Option String) (mvn : String)
    (r1 r2 : HRowKey) :
    (orderingCmp r1 r2 (get_meta_options vn mvn).ordering = .lt) ↔
      (r2.history_date < r1.history_date ∨
        (r2.history_date = r1.history_date ∧ r2.history_id < r1.history_id)) := by
  have hord : (get_meta_options vn mvn).ordering
      = ["-history_date", "-history_id"] := by
    cases vn <;> rfl
  rw [hord]
  have hs1 : startsWithDash "-history_date" = true := by decide
  have hs2 : startsWithDash "-history_id" = true := by decide
  have hd1 : ("-history_date".drop 1) = "history_date" := by decide
  have hd2 : ("-history_id".drop 1) = "history_id" := by decide
  simp only [orderingCmp, hs1, hs2, hd1, hd2, auditKeyVal, if_true]
  rcases Nat.lt_trichotomy r2.history_date r1.history_date with h | h | h
  · rw [Nat.compare_eq_lt.mpr h]
    simp [h]
  · rw [Nat.compare_eq_eq.mpr h]
    rcases Nat.lt_trichotomy r2.history_id r1.history_id with h2 | h2 | h2
    · rw [Nat.compare_eq_lt.mpr h2]
      simp [h, h2]
    · rw [Nat.compare_eq_eq.mpr h2]
      simp [h, h2]
    · rw [Nat.compare_eq_gt.mpr h2]
      simp [h, Nat.lt_asymm h2]
  · rw [Nat.compare_eq_gt.mpr h]
    simp [Nat.lt_asymm h, Nat.ne_of_gt h]

/-! ## `copy_fields` over an explicit heap (`models.py:119-138`)

Python mutates field objects in place, so the frame property "the source
model's own field objects are never mutated" is about object identity.
The heap assigns every field object and every `rel` object an id; `copy.copy`
allocates a fresh id with the same record, and attribute assignment updates
one id's record. -/

/-- A Django `ForeignObjectRel` (`field.rel`): the attributes the code
touches. -/
structure Rel where
  related_name : String
  toModel : Nat
  deriving Repr, DecidableEq, Inhabited

/-- The object heap: field objects and `rel` objects, addressed by index.
Allocation appends; assignment updates in place. -/
structure Heap where
  fields : List Field
  rels : List Rel
  deriving Repr, DecidableEq

/-- Allocate a fresh field object (`copy.copy(field)` reads the record of
the old object; the caller passes it in). -/
def Heap.allocField (h : Heap) (f : Field) : Heap × Nat :=
  ({ h with fields := h.fields ++ [f] }, h.fields.length)

/-- Allocate a fresh `rel` object. -/
def Heap.allocRel (h : Heap) (r : Rel) : Heap × Nat :=
  ({ h with rels := h.rels ++ [r] }, h.rels.length)

/-- Read a field object. -/
def Heap.getField (h : Heap) (i : Nat) : Field := h.fields.getD i default

/-- Read a `rel` object. -/
def Heap.getRel (h : Heap) (i : Nat) : Rel := h.rels.getD i default

/-- Overwrite a field object in place. -/
def Heap.setField (h : Heap) (i : Nat) (f : Field) : Heap :=
  { h with fields := h.fields.set i f }

/-- Overwrite a `rel` object in place. -/
def Heap.setRel (h : Heap) (i : Nat) (r : Rel) : Heap :=
  { h with rels := h.rels.set i r }

/-- One iteration of the `copy_fields` loop (`models.py:125-137`) on the
source field object with heap id `fid`: shallow-copy the field, then
shallow-copy its `rel`; on a foreign key, swap in the custom FK class,
point the copied rel's `related_name` at `'+'` and set `null`/`blank`;
finally apply `transform_field` to the copy and return the dictionary entry
`(field.name, copy id)`. -/
def copyFieldsStep (h : Heap) (fid : Nat) : Heap × (String × Nat) :=
  let f0 := h.getField fid
  -- field = copy.copy(field)
  let (h1, nid) := h.allocField f0
  -- field.rel = copy.copy(field.rel)
  let (h2, nrel) :=
    match f0.relId with
    | none => (h1, (none : Option Nat))
    | some rid =>
      let ar := h1.allocRel (h1.getRel rid)
      (ar.1, some ar.2)
  let f1 := { f0 with relId := nrel }
  -- if isinstance(field, models.ForeignKey): ...
  let step2 :=
    if f1.klass.isFK then
      let h3 :=
        match nrel with
        | some nr => h2.setRel nr { h2.getRel nr with related_name := "+" }
        | none => h2
      (h3, { f1 with klass := .CustomForeignKey, null := true, blank := true })
    else (h2, f1)
  -- transform_field(field); fields[field.name] = field
  let f3 := transform_field step2.2
  (step2.1.setField nid f3, (f3.name, nid))

/-- `copy_fields` (`models.py:119-138`): run the loop over the source
model's field object ids, returning the final heap and the name-to-copy
dictionary (as an association list in loop order). -/
def copy_fields (h : Heap) (fids : List Nat) : Heap × List (String × Nat) :=
  fids.foldl
    (fun acc fid =>
      let st := copyFieldsStep acc.1 fid
      (st.1, acc.2 ++ [st.2]))
    (h, [])

/-- Writing at an index at or past `m` leaves the first `m` elements
alone. -/
theorem take_set_of_le {α : Type} (v : α) :
    ∀ (l : List α) (n m : Nat), m ≤ n → (l.set n v).take m = l.take m := by
  intro l
  induction l with
  | nil => intro n m _; simp
  | cons a t ih =>
    intro n m hmn
    cases n with
    | zero =>
      have : m = 0 := Nat.le_zero.mp hmn
      subst this; simp
    | succ n =>
      cases m with
      | zero => simp
      | succ m =>
        simp only [List.set, List.take]
        rw [ih n m (Nat.le_of_succ_le_succ hmn)]

/-- `h'` extends `h`: every object id live in `h` holds the same record in
`h'` — the prefix of the heap is untouched. -/
def Heap.Extends (h h' : Heap) : Prop :=
  h'.fields.take h.fields.length = h.fields ∧
  h'.rels.take h.rels.length = h.rels

theorem Heap.Extends.rfl (h : Heap) : Heap.Extends h h :=
  ⟨List.take_length _, List.take_length _⟩

theorem Heap.Extends.trans {h1 h2 h3 : Heap}
    (a : Heap.Extends h1 h2) (b : Heap.Extends h2 h3) : Heap.Extends h1 h3 := by
  obtain ⟨af, ar⟩ := a
  obtain ⟨bf, br⟩ := b
  have lf : h1.fields.length ≤ h2.fields.length := by
    have hlen := congrArg List.length af
    rw [List.length_take] at hlen
    omega
  have lr : h1.rels.length ≤ h2.rels.length := by
    have hlen := congrArg List.length ar
    rw [List.length_take] at hlen
    omega
  constructor
  · calc h3.fields.take h1.fields.length
        = (h3.fields.take h2.fields.length).take h1.fields.length := by
          rw [List.take_take, Nat.min_eq_left lf]
      _ = h2.fields.take h1.fields.length := by rw [bf]
      _ = h1.fields := af
  · calc h3.rels.take h1.rels.length
        = (h3.rels.take h2.rels.length).take h1.rels.length := by
          rw [List.take_take, Nat.min_eq_left lr]
      _ = h2.rels.take h1.rels.length := by rw [br]
      _ = h1.rels := ar

/-- One `copy_fields` iteration only allocates fresh objects and writes at
their fresh ids: preexisting objects are untouched. -/
theorem copyFieldsStep_extends (h : Heap) (fid : Nat) :
    Heap.Extends h (copyFieldsStep h fid).1 := by
  unfold Heap.Extends copyFieldsStep
  cases hr : (h.getField fid).relId <;>
    cases hk : ((h.getField fid).klass).isFK <;>
      simp [hr, hk, Heap.allocField, Heap.allocRel, Heap.getRel,
        Heap.setField, Heap.setRel, take_set_of_le, List.take_left]

/-- Folding `copy_fields` from any starting accumulator extends the
heap. -/
theorem copy_fields_fold_extends (fids : List Nat) :
    ∀ (h : Heap) (acc : List (String × Nat)),
      Heap.Extends h
        (fids.foldl
          (fun acc fid =>
            let st := copyFieldsStep acc.1 fid
            (st.1, acc.2 ++ [st.2]))
          (h, acc)).1 := by
  induction fids with
  | nil => intro h acc; exact Heap.Extends.rfl h
  | cons fid rest ih =>
    intro h acc
    simp only [List.foldl]
    exact (copyFieldsStep_extends h fid).trans (ih _ _)

/-- **C8.** Synthesizing the history fields never mutates the source
model's own stored field objects: after `copy_fields`, every field object
and every `rel` object that existed before holds exactly the record it
held before — all renaming, class downgrading and constraint stripping
happened on freshly allocated copies. -/
theorem C8_copy_fields_frame (h : Heap) (fids : List Nat) :
    ((copy_fields h fids).1.fields).take h.fields.length = h.fields ∧
    ((copy_fields h fids).1.rels).take h.rels.length = h.rels :=
  copy_fields_fold_extends fids h []

end SimpleHistory
